/-
Verification of the Semantic Discovery Engine (engine.py / pipeline.py).

Shallow embedding notes:
* Numeric values (vector components, distances, scores) are modelled as exact
  rationals; Python's `round(x, 4)` is modelled as round-half-to-even at four
  decimal digits on exact rationals (`round4`).
* The ChromaDB collection is an external dependency; its operations
  (`upsert`, `query`, `count`) are modelled from the spec's Vector Store
  contract (section 4.2): a key -> (vector, document, metadata) index,
  upsert-by-key with batch-shape validation, nearest-first query under a
  distance metric supplied as a parameter.
* The sentence-transformer model is an external dependency; it is modelled
  as an abstract per-string encoder `String -> Vec` carried by the engine,
  batch `encode` being its order-preserving map (spec section 4.1).
* Titles handled by the ETL helpers are modelled as lists of characters;
  Python's regex `\s`, `\d` and `str.strip` are modelled over that alphabet
  by `isPySpace` and `Char.isDigit`.
-/
import Mathlib

/-! ## Python `round(x, 4)` on exact rationals -/

/-- Round-half-to-even of a rational to an integer, Python's `round(x)`. -/
def rhe (q : ℚ) : ℤ :=
  if Int.fract q < 1 / 2 then ⌊q⌋
  else if 1 / 2 < Int.fract q then ⌊q⌋ + 1
  else if ⌊q⌋ % 2 = 0 then ⌊q⌋ else ⌊q⌋ + 1

/-- Python's `round(x, 4)` on exact rationals. -/
def round4 (x : ℚ) : ℚ := (rhe (x * 10000) : ℚ) / 10000

/-! ## pipeline.py — ETL helpers -/

/-- The whitespace characters recognised by Python's `\s` and `str.strip`
(ASCII range: space, tab, newline, carriage return, vertical tab, form feed). -/
def isPySpace (c : Char) : Bool :=
  c = ' ' || c = '\t' || c = '\n' || c = '\r' || c = Char.ofNat 11 || c = Char.ofNat 12

/-- Python's `str.strip()`: remove leading and trailing whitespace. -/
def stripChars (l : List Char) : List Char :=
  ((l.dropWhile isPySpace).reverse.dropWhile isPySpace).reverse

/-- Attempt to match the regex `\((\d{4})\)\s*$` at the head of `l`
(so the tail after the closing parenthesis must be all whitespace);
returns the four captured digit characters on success. -/
def matchYearAt (l : List Char) : Option (List Char) :=
  match l with
  | c0 :: c1 :: c2 :: c3 :: c4 :: c5 :: rest =>
    if c0 = '(' && c1.isDigit && c2.isDigit && c3.isDigit && c4.isDigit &&
        c5 = ')' && rest.all isPySpace
    then some [c1, c2, c3, c4] else none
  | _ => none

/-- Leftmost search for `\((\d{4})\)\s*$`: scan positions left to right,
returning the text before the match together with the captured digits. -/
def searchYearGo (pre l : List Char) : Option (List Char × List Char) :=
  match matchYearAt l with
  | some ds => some (pre.reverse, ds)
  | none =>
    match l with
    | [] => none
    | c :: cs => searchYearGo (c :: pre) cs

/-- Python `re.search` of the year pattern, as (prefix, captured digits). -/
def searchYear (t : List Char) : Option (List Char × List Char) :=
  searchYearGo [] t

/-- pipeline.clean_title: `re.sub(r"\(\d{4}\)\s*$", "", title).strip()`. -/
def clean_title (t : List Char) : List Char :=
  match searchYear t with
  | some (p, _) => stripChars p
  | none => stripChars t

/-- pipeline.extract_year: return the captured year digits, else `"Unknown"`. -/
def extract_year (t : List Char) : List Char :=
  match searchYear t with
  | some (_, ds) => ds
  | none => "Unknown".toList

/-! ## engine.py — data model -/

/-- An embedding vector (exact-rational components). -/
abbrev Vec := List ℚ

/-- A stored metadata record: the five columns written by the indexing loop.
An absent field models a key missing from the ChromaDB metadata dict. -/
structure Metadata where
  title : Option String
  clean_title : Option String
  year : Option String
  genres_clean : Option String
  tags : Option String
deriving DecidableEq

/-- One Vector Store entry: vector, document text and metadata (spec 3). -/
structure IndexEntry where
  vector : Vec
  document : String
  metadata : Metadata
deriving DecidableEq

/-- The Vector Store state: an association list keyed by id. -/
abbrev Store := List (String × IndexEntry)

/-- Modelled from the spec: `ValidationError` — malformed batch shapes
(mismatched sequence lengths in upsert) are rejected. -/
inductive ValidationError where
  | unequalLengths
deriving DecidableEq

/-- Insert-or-replace a single keyed entry (spec: upsert-by-key). -/
def upsertOne (s : Store) (key : String) (e : IndexEntry) : Store :=
  if s.any (fun p => p.1 = key) then
    s.map (fun p => if p.1 = key then (key, e) else p)
  else s ++ [(key, e)]

/-- Modelled from the spec: `collection.count()` — number of stored ids. -/
def Store.count (s : Store) : ℕ := s.length

/-- Modelled from the spec: `collection.upsert(ids, embeddings, documents,
metadatas)` — the four sequences must have equal length, otherwise the batch
is rejected with a `ValidationError` before any write; on success each
`ids[i]` is created or fully replaced with the matched-position data. -/
def chromaUpsert (s : Store) (ids : List String) (embeddings : List Vec)
    (documents : List String) (metadatas : List Metadata) :
    Except ValidationError Store :=
  if ids.length = embeddings.length ∧ ids.length = documents.length ∧
      ids.length = metadatas.length then
    .ok ((ids.zip (embeddings.zip (documents.zip metadatas))).foldl
      (fun st q => upsertOne st q.1 ⟨q.2.1, q.2.2.1, q.2.2.2⟩) s)
  else .error .unequalLengths

/-- Modelled from the spec: `collection.query(query_embeddings, n_results)` —
returns at most `k` (metadata, distance) pairs, ordered by increasing
distance (nearest first); the distance metric is the one fixed at
store-creation time, supplied here as the parameter `dist`. -/
def chromaQuery (dist : Vec → Vec → ℚ) (s : Store) (qv : Vec) (k : ℕ) :
    List (Metadata × ℚ) :=
  ((s.map (fun p => (p.2.metadata, dist qv p.2.vector))).mergeSort
    (fun a b => decide (a.2 ≤ b.2))).take k

/-! ## engine.py — the SemanticEngine -/

def COLLECTION_NAME : String := "movies"

def MODEL_NAME : String := "all-MiniLM-L6-v2"

/-- Rows per ChromaDB upsert call. -/
def BATCH_SIZE : ℕ := 512

/-- The engine state: the loaded sentence-transformer model (abstracted to a
per-string encoder) and the ChromaDB collection. -/
structure SemanticEngine where
  model : String → Vec
  collection : Store

/-- Batch encoding `model.encode(texts)`: order-preserving, one vector per input string. -/
def encode (model : String → Vec) (texts : List String) : List Vec :=
  texts.map model

/-- One row of `processed_movies.csv`; `none` models a missing (NaN) cell. -/
structure MovieRow where
  movieId : ℤ
  title : Option String
  clean_title : Option String
  year : Option String
  genres_clean : Option String
  tags : Option String
  soup : Option String

/-- Soup cleanup `df["soup"].fillna("").astype(str)` applied to one row. -/
def rowSoup (r : MovieRow) : String := r.soup.getD ""

/-- Metadata extraction `batch[[...]].fillna("")` for the five metadata
columns, turned into one record (every key present, NaN becomes `""`). -/
def rowMetadata (r : MovieRow) : Metadata :=
  ⟨some (r.title.getD ""), some (r.clean_title.getD ""), some (r.year.getD ""),
    some (r.genres_clean.getD ""), some (r.tags.getD "")⟩

/-- The pandas batch slicing `df.iloc[i*B : (i+1)*B]` for
`i in range(ceil(len(df)/B))`. -/
def batchesOf (bs : ℕ) (l : List α) : List (List α) :=
  (List.range ((l.length + bs - 1) / bs)).map (fun i => (l.drop (i * bs)).take bs)

/-- SemanticEngine.index: skip when the collection is non-empty and no force
flag is given; otherwise encode and upsert the catalog batch by batch. -/
def SemanticEngine.index (e : SemanticEngine) (catalog : List MovieRow)
    (force : Bool) : Except ValidationError SemanticEngine :=
  if 0 < e.collection.count ∧ force = false then .ok e
  else
    match (batchesOf BATCH_SIZE catalog).foldlM
      (fun st batch =>
        chromaUpsert st
          (batch.map (fun r => toString r.movieId))
          (encode e.model (batch.map rowSoup))
          (batch.map rowSoup)
          (batch.map rowMetadata)) e.collection with
    | .ok s => .ok { e with collection := s }
    | .error err => .error err

/-- One recommendation record, as built by SemanticEngine.recommend. -/
structure QueryResult where
  title : String
  year : String
  genres : String
  tags : String
  score : ℚ
  distance : ℚ
deriving DecidableEq

/-- The per-hit conversion inside SemanticEngine.recommend: metadata lookups
with their fallbacks, `score = round(1 - dist, 4)`, `distance = round(dist, 4)`. -/
def convertHit (hit : Metadata × ℚ) : QueryResult :=
  { title := hit.1.title.getD "N/A"
    year := hit.1.year.getD "N/A"
    genres := hit.1.genres_clean.getD "N/A"
    tags := hit.1.tags.getD ""
    score := round4 (1 - hit.2)
    distance := round4 hit.2 }

/-- SemanticEngine.recommend: encode the query, fetch the `n_results` nearest
hits from the collection, convert each hit to a QueryResult. -/
def SemanticEngine.recommend (dist : Vec → Vec → ℚ) (e : SemanticEngine)
    (query : String) (n_results : ℕ) : List QueryResult :=
  let query_vec := encode e.model [query]
  (chromaQuery dist e.collection (query_vec.getD 0 []) n_results).map convertHit

/-- Modelled from the spec: the Vector Store query is a read — it returns the
store state unchanged alongside the hits (retrieval never mutates the store). -/
def chromaQueryCall (dist : Vec → Vec → ℚ) (s : Store) (qv : Vec) (k : ℕ) :
    Store × List (Metadata × ℚ) :=
  (s, chromaQuery dist s qv k)

/-- SemanticEngine.recommend with the store state threaded explicitly through
the one store operation it performs, to state the frame property. -/
def SemanticEngine.recommendRun (dist : Vec → Vec → ℚ) (e : SemanticEngine)
    (query : String) (n_results : ℕ) : SemanticEngine × List QueryResult :=
  let query_vec := encode e.model [query]
  let res := chromaQueryCall dist e.collection (query_vec.getD 0 []) n_results
  ({ e with collection := res.1 }, res.2.map convertHit)

/-- The record returned by SemanticEngine.stats. -/
structure CollectionStats where
  collection : String
  total_movies : ℕ
  model : String
  vector_dim : ℕ
deriving DecidableEq

/-- SemanticEngine.stats: collection name, live count, model name, and the
literal vector dimension 384. -/
def SemanticEngine.stats (e : SemanticEngine) : CollectionStats :=
  { collection := COLLECTION_NAME
    total_movies := e.collection.count
    model := MODEL_NAME
    vector_dim := 384 }

/-- Item-by-item upsert of a whole catalog, in catalog order: the batch-free
characterisation of the indexing write path. -/
def catFold (model : String → Vec) (s : Store) (catalog : List MovieRow) : Store :=
  catalog.foldl
    (fun st r => upsertOne st (toString r.movieId)
      ⟨model (rowSoup r), rowSoup r, rowMetadata r⟩) s


/-! ## Concrete data used by witnesses and counterexamples -/

def wMeta : Metadata :=
  ⟨some "The Matrix", some "The Matrix", some "1999", some "Action", some "cult"⟩

def wEntry : IndexEntry := ⟨[1, 0], "matrix soup", wMeta⟩

def wEngine : SemanticEngine := ⟨fun _ => [1, 0], [("1", wEntry)]⟩

def wEngine2 : SemanticEngine := ⟨fun _ => [5, 5], []⟩

def wDist : Vec → Vec → ℚ := fun _ _ => 1 / 2

def wDist32 : Vec → Vec → ℚ := fun _ _ => 3 / 2

def wRow : MovieRow :=
  ⟨7, some "The Matrix (1999)", some "The Matrix", some "1999", some "Action",
    none, some "matrix soup"⟩


/-! ## Arithmetic lemmas about round4 -/

theorem rhe_intCast (n : ℤ) : rhe ((n : ℚ)) = n := by
  unfold rhe
  rw [Int.fract_intCast, Int.floor_intCast]
  norm_num

theorem floor_neg_of_fract_ne {x : ℚ} (h : Int.fract x ≠ 0) : ⌊-x⌋ = -⌊x⌋ - 1 := by
  have h1 : (⌊x⌋ : ℚ) ≤ x := Int.floor_le x
  have h2 : x < ⌊x⌋ + 1 := Int.lt_floor_add_one x
  have h3 : (⌊x⌋ : ℚ) ≠ x := by
    intro he
    apply h
    unfold Int.fract
    rw [← he, Int.floor_intCast]
    ring
  rw [Int.floor_eq_iff]
  push_cast
  constructor
  · linarith
  · linarith [lt_of_le_of_ne h1 h3]

theorem rhe_even_sub (N : ℤ) (hN : N % 2 = 0) (x : ℚ) :
    rhe ((N : ℚ) - x) = N - rhe x := by
  by_cases h0 : Int.fract x = 0
  · have hz : x = (⌊x⌋ : ℚ) := by
      unfold Int.fract at h0
      linarith
    rw [hz]
    have : ((N : ℚ) - (⌊x⌋ : ℚ)) = ((N - ⌊x⌋ : ℤ) : ℚ) := by push_cast; ring
    rw [this, rhe_intCast, rhe_intCast]
  · have hfl : ⌊(N : ℚ) - x⌋ = N - ⌊x⌋ - 1 := by
      rw [sub_eq_add_neg, Int.floor_int_add, floor_neg_of_fract_ne h0]
      ring
    have hfr : Int.fract ((N : ℚ) - x) = 1 - Int.fract x := by
      rw [sub_eq_add_neg, Int.fract_int_add, Int.fract_neg h0]
    have hb1 : 0 ≤ Int.fract x := Int.fract_nonneg x
    have hb2 : Int.fract x < 1 := Int.fract_lt_one x
    have hb0 : 0 < Int.fract x := lt_of_le_of_ne hb1 (Ne.symm h0)
    unfold rhe
    rw [hfr, hfl]
    split_ifs <;> first | omega | linarith

theorem rhe_mono {x y : ℚ} (h : x ≤ y) : rhe x ≤ rhe y := by
  have hf : ⌊x⌋ ≤ ⌊y⌋ := Int.floor_mono h
  by_cases hlt : ⌊x⌋ < ⌊y⌋
  · have b1 : rhe x ≤ ⌊x⌋ + 1 := by unfold rhe; split_ifs <;> omega
    have b2 : ⌊y⌋ ≤ rhe y := by unfold rhe; split_ifs <;> omega
    omega
  · have heq : ⌊x⌋ = ⌊y⌋ := le_antisymm hf (not_lt.mp hlt)
    have hfr : Int.fract x ≤ Int.fract y := by
      unfold Int.fract
      rw [heq]
      linarith
    unfold rhe
    rw [heq]
    split_ifs <;> first | omega | linarith

theorem round4_eq_of_mul {q : ℚ} {m : ℤ} (h : q * 10000 = (m : ℚ)) :
    round4 q = (m : ℚ) / 10000 := by
  unfold round4
  rw [h, rhe_intCast]

theorem round4_round4 (x : ℚ) : round4 (round4 x) = round4 x := by
  have h : round4 x * 10000 = ((rhe (x * 10000) : ℤ) : ℚ) := by
    unfold round4
    field_simp
  rw [round4_eq_of_mul h]
  unfold round4
  rfl

theorem round4_one_sub (d : ℚ) : round4 (1 - d) = 1 - round4 d := by
  unfold round4
  have h : (1 - d) * 10000 = ((10000 : ℤ) : ℚ) - d * 10000 := by push_cast; ring
  rw [h, rhe_even_sub 10000 (by norm_num) (d * 10000)]
  push_cast
  ring

theorem round4_mono {x y : ℚ} (h : x ≤ y) : round4 x ≤ round4 y := by
  unfold round4
  have h3 : rhe (x * 10000) ≤ rhe (y * 10000) := rhe_mono (by linarith)
  have h4 : ((rhe (x * 10000) : ℤ) : ℚ) ≤ ((rhe (y * 10000) : ℤ) : ℚ) := by
    exact_mod_cast h3
  linarith

theorem round4_zero : round4 0 = 0 := by
  rw [round4_eq_of_mul (m := 0) (by norm_num)]
  norm_num

theorem round4_one : round4 1 = 1 := by
  rw [round4_eq_of_mul (m := 10000) (by norm_num)]
  norm_num

theorem round4_neg_one : round4 (-1) = -1 := by
  rw [round4_eq_of_mul (m := -10000) (by norm_num)]
  norm_num

theorem round4_two : round4 2 = 2 := by
  rw [round4_eq_of_mul (m := 20000) (by norm_num)]
  norm_num

/-! ## Helper lemmas: upsert batches and batching -/

theorem upsertBatch_eq (f : String → Vec) (s : Store) (b : List MovieRow) :
    chromaUpsert s (b.map (fun r => toString r.movieId)) (encode f (b.map rowSoup))
      (b.map rowSoup) (b.map rowMetadata) = .ok (catFold f s b) := by
  unfold chromaUpsert
  rw [if_pos (by simp [encode])]
  congr 1
  induction b generalizing s with
  | nil => simp [catFold]
  | cons r bs ih =>
    simp only [List.map_cons, encode, List.zip_cons_cons, List.foldl_cons, catFold] at ih ⊢
    exact ih _

theorem batchesOf_nil (bs : ℕ) : batchesOf bs ([] : List α) = [] := by
  unfold batchesOf
  have h : (List.length ([] : List α) + bs - 1) / bs = 0 := by
    rcases Nat.eq_zero_or_pos bs with h | h
    · subst h; simp
    · exact Nat.div_eq_of_lt (by simp; omega)
  rw [h]
  rfl

theorem batchesOf_cons_of (bs : ℕ) (hbs : 0 < bs) (l : List α) (hl : l ≠ []) :
    batchesOf bs l = l.take bs :: batchesOf bs (l.drop bs) := by
  unfold batchesOf
  have hn : 0 < l.length := List.length_pos.mpr hl
  have hstep : (l.length + bs - 1) / bs = ((l.drop bs).length + bs - 1) / bs + 1 := by
    rw [List.length_drop]
    rcases le_or_lt l.length bs with hle | hlt
    · have h1 : l.length - bs = 0 := by omega
      rw [h1]
      have h2 : (0 + bs - 1) / bs = 0 := Nat.div_eq_of_lt (by omega)
      rw [h2]
      have h3 : l.length + bs - 1 = (l.length - 1) + bs := by omega
      rw [h3, Nat.add_div_right _ hbs]
      have h4 : (l.length - 1) / bs = 0 := Nat.div_eq_of_lt (by omega)
      omega
    · have h5 : l.length + bs - 1 = (l.length - bs + bs - 1) + bs := by omega
      rw [h5, Nat.add_div_right _ hbs]
  rw [hstep, List.range_succ_eq_map, List.map_cons, List.map_map]
  refine congrArg₂ List.cons (by simp) ?_
  apply List.map_congr_left
  intro i _
  simp only [Function.comp_apply, List.drop_drop]
  congr 2
  simp [Nat.succ_mul]
  omega

theorem batchesOf_flatten (bs : ℕ) (hbs : 0 < bs) (l : List α) :
    (batchesOf bs l).flatten = l := by
  suffices h : ∀ (n : ℕ) (l : List α), l.length ≤ n → (batchesOf bs l).flatten = l from
    h l.length l le_rfl
  intro n
  induction n with
  | zero =>
    intro l hl
    have : l = [] := by
      cases l with
      | nil => rfl
      | cons a t => simp at hl
    simp [this, batchesOf_nil]
  | succ n ih =>
    intro l hl
    by_cases hemp : l = []
    · simp [hemp, batchesOf_nil]
    · have hn : 0 < l.length := List.length_pos.mpr hemp
      rw [batchesOf_cons_of bs hbs l hemp, List.flatten_cons,
        ih (l.drop bs) (by rw [List.length_drop]; omega), List.take_append_drop]

theorem index_run (e : SemanticEngine) (catalog : List MovieRow) (force : Bool)
    (h : e.collection.count = 0 ∨ force = true) :
    e.index catalog force = .ok { e with collection := catFold e.model e.collection catalog } := by
  unfold SemanticEngine.index
  have hng : ¬(0 < e.collection.count ∧ force = false) := by
    rintro ⟨h1, h2⟩
    rcases h with h | h
    · rw [h] at h1
      exact absurd h1 (lt_irrefl 0)
    · rw [h] at h2
      simp at h2
  rw [if_neg hng]
  have key : ∀ (bs : List (List MovieRow)) (s : Store),
      bs.foldlM (fun st batch => chromaUpsert st (batch.map (fun r => toString r.movieId))
        (encode e.model (batch.map rowSoup)) (batch.map rowSoup) (batch.map rowMetadata)) s
      = .ok (catFold e.model s bs.flatten) := by
    intro bs
    induction bs with
    | nil => intro s; rfl
    | cons b rest ih =>
      intro s
      rw [List.foldlM_cons, upsertBatch_eq, List.flatten_cons,
        show catFold e.model s (b ++ rest.flatten)
          = catFold e.model (catFold e.model s b) rest.flatten from by
            simp [catFold, List.foldl_append]]
      exact ih (catFold e.model s b)
  rw [key, batchesOf_flatten BATCH_SIZE (by norm_num [BATCH_SIZE]) catalog]

theorem length_le_upsertOne (s : Store) (key : String) (x : IndexEntry) :
    s.length ≤ (upsertOne s key x).length := by
  unfold upsertOne
  split_ifs <;> simp

theorem upsertOne_length_pos (s : Store) (key : String) (x : IndexEntry) :
    0 < (upsertOne s key x).length := by
  unfold upsertOne
  split_ifs with h
  · cases s with
    | nil => simp at h
    | cons a t => simp
  · simp

theorem length_le_catFold (f : String → Vec) (s : Store) (cat : List MovieRow) :
    s.length ≤ (catFold f s cat).length := by
  induction cat generalizing s with
  | nil => simp [catFold]
  | cons r rest ih =>
    have h1 := length_le_upsertOne s (toString r.movieId)
      ⟨f (rowSoup r), rowSoup r, rowMetadata r⟩
    have h2 := ih (upsertOne s (toString r.movieId) ⟨f (rowSoup r), rowSoup r, rowMetadata r⟩)
    simp only [catFold, List.foldl_cons] at h2 ⊢
    omega

theorem catFold_length_pos (f : String → Vec) (s : Store) (cat : List MovieRow)
    (h : cat ≠ []) : 0 < (catFold f s cat).length := by
  cases cat with
  | nil => exact absurd rfl h
  | cons r rest =>
    have h1 := upsertOne_length_pos s (toString r.movieId)
      ⟨f (rowSoup r), rowSoup r, rowMetadata r⟩
    have h2 := length_le_catFold f
      (upsertOne s (toString r.movieId) ⟨f (rowSoup r), rowSoup r, rowMetadata r⟩) rest
    simp only [catFold, List.foldl_cons] at h2 ⊢
    omega

/-- C4: indexing is idempotent under the skip-if-present policy — when the
store count is positive and force is not set, index performs no writes and
returns the engine unchanged; and running index twice without force produces
the same engine state (count and stored vectors) as running it once. -/
theorem index_idempotent (e : SemanticEngine) (catalog : List MovieRow) :
    (0 < e.collection.count → e.index catalog false = .ok e) ∧
    (∀ e', e.index catalog false = .ok e' → e'.index catalog false = .ok e') := by
  constructor
  · intro h
    unfold SemanticEngine.index
    rw [if_pos ⟨h, rfl⟩]
  · intro e' h
    by_cases hpos : 0 < e.collection.count
    · unfold SemanticEngine.index at h
      rw [if_pos ⟨hpos, rfl⟩, Except.ok.injEq] at h
      subst h
      unfold SemanticEngine.index
      rw [if_pos ⟨hpos, rfl⟩]
    · have h0 : e.collection.count = 0 := by
        unfold Store.count at hpos ⊢
        omega
      rw [index_run e catalog false (Or.inl h0), Except.ok.injEq] at h
      subst h
      by_cases hcat : catalog = []
      · subst hcat
        exact index_run _ [] false (Or.inl (by simpa [catFold] using h0))
      · unfold SemanticEngine.index
        rw [if_pos ⟨catFold_length_pos e.model e.collection catalog hcat, rfl⟩]

/-- C5: when index does not skip, it writes exactly the item-by-item
order-preserving upsert of the whole catalog; the batches are a contiguous
order-preserving partition of the catalog (flatten recovers the catalog),
every batch has size at most BATCH_SIZE and is non-empty, every non-final
batch has size exactly BATCH_SIZE, and each per-batch upsert pairs the ids,
embeddings, documents and metadata of the batch by matched positions and
succeeds, each batch completing before the next begins (sequential fold). -/
theorem index_batching (e : SemanticEngine) (catalog : List MovieRow) (force : Bool)
    (h : e.collection.count = 0 ∨ force = true) :
    e.index catalog force = .ok { e with collection := catFold e.model e.collection catalog } ∧
    (batchesOf BATCH_SIZE catalog).flatten = catalog ∧
    (∀ b ∈ batchesOf BATCH_SIZE catalog, b.length ≤ BATCH_SIZE ∧ b ≠ []) ∧
    (∀ i, i + 1 < (batchesOf BATCH_SIZE catalog).length →
      ((batchesOf BATCH_SIZE catalog).getD i []).length = BATCH_SIZE) ∧
    (∀ (b : List MovieRow) (s : Store),
      chromaUpsert s (b.map (fun r => toString r.movieId))
        (encode e.model (b.map rowSoup)) (b.map rowSoup) (b.map rowMetadata)
      = .ok (catFold e.model s b)) := by
  refine ⟨index_run e catalog force h,
    batchesOf_flatten BATCH_SIZE (by norm_num [BATCH_SIZE]) catalog, ?_, ?_, ?_⟩
  · intro b hb
    unfold batchesOf at hb
    obtain ⟨i, hi, rfl⟩ := List.mem_map.mp hb
    rw [List.mem_range] at hi
    constructor
    · simp
    · have hlen : ((catalog.drop (i * BATCH_SIZE)).take BATCH_SIZE).length
          = min BATCH_SIZE (catalog.length - i * BATCH_SIZE) := by
        simp [List.length_take, List.length_drop]
      rw [← List.length_pos, hlen]
      unfold BATCH_SIZE at hi ⊢
      omega
  · intro i hi
    have hlen : (batchesOf BATCH_SIZE catalog).length = (catalog.length + BATCH_SIZE - 1) / BATCH_SIZE := by
      simp [batchesOf]
    rw [hlen] at hi
    have hi' : i < (batchesOf BATCH_SIZE catalog).length := by rw [hlen]; omega
    rw [List.getD_eq_getElem _ _ hi']
    unfold batchesOf
    simp only [List.getElem_map, List.getElem_range, List.length_take, List.length_drop]
    unfold BATCH_SIZE at hi ⊢
    omega
  · intro b s
    exact upsertBatch_eq e.model s b

/-- C6 (amended): a non-forced re-index on a populated store changes
nothing; a forced re-index after swapping in a different embedder recomputes
every catalog entry with the swapped embedder, so retrieval data reflects it;
and stats reports the constant vector_dim 384 of the hard-coded configured
model (never derived from stored vectors, hence defined also on an empty
store) — it does not track a swapped embedder's dimensionality. -/
theorem index_force_recomputes (e : SemanticEngine) (g : String → Vec)
    (catalog : List MovieRow) :
    (0 < e.collection.count → e.index catalog false = .ok e) ∧
    (({ e with model := g } : SemanticEngine).index catalog true
      = .ok { e with model := g, collection := catFold g e.collection catalog }) ∧
    (∀ e' : SemanticEngine, e'.stats.vector_dim = 384 ∧ e'.stats.model = MODEL_NAME ∧
      e'.stats.total_movies = e'.collection.count) := by
  refine ⟨?_, ?_, fun e' => ⟨rfl, rfl, rfl⟩⟩
  · intro h
    unfold SemanticEngine.index
    rw [if_pos ⟨h, rfl⟩]
  · exact index_run { e with model := g } catalog true (Or.inr rfl)

/-! ## Retrieval lemmas -/

theorem chromaQuery_pairwise (dist : Vec → Vec → ℚ) (s : Store) (qv : Vec) (k : ℕ) :
    List.Pairwise (fun a b : Metadata × ℚ => a.2 ≤ b.2) (chromaQuery dist s qv k) := by
  unfold chromaQuery
  apply List.Pairwise.take
  have hs : List.Pairwise
      (fun a b : Metadata × ℚ => (fun a b : Metadata × ℚ => decide (a.2 ≤ b.2)) a b = true)
      ((s.map (fun p => (p.2.metadata, dist qv p.2.vector))).mergeSort
        (fun a b => decide (a.2 ≤ b.2))) :=
    List.sorted_mergeSort
      (fun a b c hab hbc => by
        simp only [decide_eq_true_eq] at hab hbc ⊢
        exact le_trans hab hbc)
      (fun a b => by simp [le_total])
      (s.map (fun p => (p.2.metadata, dist qv p.2.vector)))
  exact hs.imp (by intro a b hab; simpa using hab)

theorem chromaQuery_length (dist : Vec → Vec → ℚ) (s : Store) (qv : Vec) (k : ℕ) :
    (chromaQuery dist s qv k).length = min k s.length := by
  simp [chromaQuery]

theorem chromaQuery_mem (dist : Vec → Vec → ℚ) (s : Store) (qv : Vec) (k : ℕ)
    (hit : Metadata × ℚ) (h : hit ∈ chromaQuery dist s qv k) :
    ∃ p ∈ s, hit = (p.2.metadata, dist qv p.2.vector) := by
  unfold chromaQuery at h
  have h1 := List.mem_mergeSort.mp (List.mem_of_mem_take h)
  obtain ⟨p, hp, rfl⟩ := List.mem_map.mp h1
  exact ⟨p, hp, rfl⟩

/-- C1: for every QueryResult returned by recommend, the score field equals
round4 of (1 minus the distance field of that same QueryResult) — exactly, in
exact-rational arithmetic. -/
theorem recommend_score_eq (dist : Vec → Vec → ℚ) (e : SemanticEngine)
    (q : String) (n : ℕ) (r : QueryResult)
    (h : r ∈ SemanticEngine.recommend dist e q n) :
    r.score = round4 (1 - r.distance) := by
  unfold SemanticEngine.recommend at h
  obtain ⟨hit, hhit, rfl⟩ := List.mem_map.mp h
  show round4 (1 - hit.2) = round4 (1 - round4 hit.2)
  rw [round4_one_sub, round4_one_sub, round4_round4]

/-- C2 (amended): whenever the store's distance metric yields raw values in
[0, 2] (the range of cosine distance), every QueryResult has its distance
field nonnegative and its score in [-1, 1]; the distance field is the raw
metric value rounded to four decimal places, and the score is round4 of one
minus the raw value. -/
theorem recommend_bounds (dist : Vec → Vec → ℚ) (e : SemanticEngine)
    (q : String) (n : ℕ) (h : ∀ u v, 0 ≤ dist u v ∧ dist u v ≤ 2) :
    (∀ r ∈ SemanticEngine.recommend dist e q n,
      0 ≤ r.distance ∧ -1 ≤ r.score ∧ r.score ≤ 1) ∧
    (∀ (m : Metadata) (d : ℚ),
      (convertHit (m, d)).distance = round4 d ∧ (convertHit (m, d)).score = round4 (1 - d)) := by
  refine ⟨?_, fun m d => ⟨rfl, rfl⟩⟩
  intro r hr
  unfold SemanticEngine.recommend at hr
  obtain ⟨hit, hhit, rfl⟩ := List.mem_map.mp hr
  obtain ⟨p, hp, rfl⟩ := chromaQuery_mem _ _ _ _ hit hhit
  obtain ⟨hd0, hd2⟩ := h ((encode e.model [q]).getD 0 []) p.2.vector
  refine ⟨?_, ?_, ?_⟩
  · show 0 ≤ round4 (dist _ p.2.vector)
    calc (0 : ℚ) = round4 0 := by rw [round4_zero]
    _ ≤ _ := round4_mono hd0
  · show -1 ≤ round4 (1 - dist _ p.2.vector)
    calc (-1 : ℚ) = round4 (-1) := by rw [round4_neg_one]
    _ ≤ _ := round4_mono (by linarith)
  · show round4 (1 - dist _ p.2.vector) ≤ 1
    calc round4 (1 - dist _ p.2.vector) ≤ round4 1 := round4_mono (by linarith)
    _ = 1 := round4_one

/-- C3: for every query and n_results at least 1, recommend returns at most
n_results results and at most count() results, the output is exactly the
Vector Store's returned order converted hit by hit (no re-ranking), the
distance fields are non-decreasing, and an empty store yields the empty
sequence rather than an error. -/
theorem recommend_ordering (dist : Vec → Vec → ℚ) (e : SemanticEngine)
    (q : String) (n : ℕ) (h : 1 ≤ n) :
    (SemanticEngine.recommend dist e q n).length ≤ n ∧
    (SemanticEngine.recommend dist e q n).length ≤ e.collection.count ∧
    SemanticEngine.recommend dist e q n
      = (chromaQuery dist e.collection ((encode e.model [q]).getD 0 []) n).map convertHit ∧
    List.Pairwise (fun a b : QueryResult => a.distance ≤ b.distance)
      (SemanticEngine.recommend dist e q n) ∧
    (e.collection = [] → SemanticEngine.recommend dist e q n = []) := by
  refine ⟨?_, ?_, rfl, ?_, ?_⟩
  · unfold SemanticEngine.recommend
    rw [List.length_map, chromaQuery_length]
    omega
  · unfold SemanticEngine.recommend Store.count
    rw [List.length_map, chromaQuery_length]
    omega
  · unfold SemanticEngine.recommend
    exact (chromaQuery_pairwise dist e.collection _ n).map convertHit
      (fun a b hab => round4_mono hab)
  · intro hemp
    unfold SemanticEngine.recommend
    rw [hemp]
    simp [chromaQuery]

/-- C8: recommend maps stored metadata into the QueryResult's named fields,
using the fallback value under a missing title, year or genres field being
the string N/A, and the fallback under a missing tags field being the empty
string; the output is this conversion applied to every store hit. -/
theorem recommend_fallbacks (dist : Vec → Vec → ℚ) (e : SemanticEngine)
    (q : String) (n : ℕ) :
    (∀ (m : Metadata) (d : ℚ),
      (convertHit (m, d)).title = m.title.getD "N/A" ∧
      (convertHit (m, d)).year = m.year.getD "N/A" ∧
      (convertHit (m, d)).genres = m.genres_clean.getD "N/A" ∧
      (convertHit (m, d)).tags = m.tags.getD "") ∧
    SemanticEngine.recommend dist e q n
      = (chromaQuery dist e.collection ((encode e.model [q]).getD 0 []) n).map convertHit :=
  ⟨fun m d => ⟨rfl, rfl, rfl, rfl⟩, rfl⟩

theorem recommend_fallbacks_witness :
    (convertHit (wMeta, 1 / 2)).title = wMeta.title.getD "N/A" ∧
    (convertHit (wMeta, 1 / 2)).tags = wMeta.tags.getD "" :=
  ⟨((recommend_fallbacks wDist wEngine "robot" 1).1 wMeta (1 / 2)).1,
    ((recommend_fallbacks wDist wEngine "robot" 1).1 wMeta (1 / 2)).2.2.2⟩

/-- C9: recommend never mutates the Vector Store — threading the store
state through the single (read-only) store operation recommend performs
returns the engine unchanged, with identical collection contents and
identical stats. -/
theorem recommend_no_mutation (dist : Vec → Vec → ℚ) (e : SemanticEngine)
    (q : String) (n : ℕ) :
    SemanticEngine.recommendRun dist e q n = (e, SemanticEngine.recommend dist e q n) ∧
    (SemanticEngine.recommendRun dist e q n).1.collection = e.collection ∧
    (SemanticEngine.recommendRun dist e q n).1.stats = e.stats :=
  ⟨rfl, rfl, rfl⟩

theorem wEngine_recommend (d : Vec → Vec → ℚ) (v : ℚ) (h : d [1, 0] [1, 0] = v) :
    SemanticEngine.recommend d wEngine "robot" 1 = [convertHit (wMeta, v)] := by
  simp [SemanticEngine.recommend, chromaQuery, wEngine, wEntry, encode,
    List.mergeSort_singleton, h]

theorem recommend_score_eq_witness :
    (convertHit (wMeta, 1 / 2)).score = round4 (1 - (convertHit (wMeta, 1 / 2)).distance) :=
  recommend_score_eq wDist wEngine "robot" 1 _
    (by rw [wEngine_recommend wDist (1 / 2) rfl]; exact List.mem_singleton.mpr rfl)

/-- C2 counterexample: with a store-metric value of 3/2 (a legitimate cosine
distance), the returned score is -1/2, outside [0, 1], refuting the claim as
stated. -/
theorem recommend_unit_interval_cex :
    ¬ (∀ r ∈ SemanticEngine.recommend wDist32 wEngine "q" 1,
        0 ≤ r.score ∧ r.score ≤ 1) := by
  intro hall
  have hmem : convertHit (wMeta, 3 / 2) ∈ SemanticEngine.recommend wDist32 wEngine "q" 1 := by
    simp [SemanticEngine.recommend, chromaQuery, wEngine, wEntry, encode,
      List.mergeSort_singleton, wDist32]
  obtain ⟨h1, h2⟩ := hall _ hmem
  have hs : (convertHit (wMeta, (3 : ℚ) / 2)).score = -(1 / 2) := by
    show round4 (1 - 3 / 2) = -(1 / 2)
    rw [show (1 - (3 : ℚ) / 2) = -(1 / 2) by norm_num,
      round4_eq_of_mul (m := -5000) (by norm_num)]
    norm_num
  rw [hs] at h1
  linarith

theorem recommend_bounds_witness :
    0 ≤ (convertHit (wMeta, 1 / 2)).distance ∧
    -1 ≤ (convertHit (wMeta, 1 / 2)).score ∧ (convertHit (wMeta, 1 / 2)).score ≤ 1 :=
  (recommend_bounds wDist wEngine "robot" 1 (fun u v => by norm_num [wDist])).1
    (convertHit (wMeta, 1 / 2))
    (by rw [wEngine_recommend wDist (1 / 2) rfl]; exact List.mem_singleton.mpr rfl)

theorem recommend_ordering_witness : (SemanticEngine.recommend wDist wEngine "robot" 1).length ≤ 1 :=
  (recommend_ordering wDist wEngine "robot" 1 le_rfl).1

theorem index_idempotent_witness : SemanticEngine.index wEngine [wRow] false = .ok wEngine :=
  (index_idempotent wEngine [wRow]).1 (by simp [wEngine, Store.count])

theorem index_batching_witness :
    SemanticEngine.index wEngine2 [wRow] false
      = .ok { wEngine2 with collection := catFold wEngine2.model wEngine2.collection [wRow] } :=
  (index_batching wEngine2 [wRow] false (Or.inl rfl)).1

/-- C6 counterexample: after a forced re-index with an embedder producing
2-dimensional vectors, the stored vectors have dimension 2 while
stats().vector_dim still reports 384, so stats does not reflect the swapped
embedder. -/
theorem stats_vector_dim_cex :
    (SemanticEngine.index wEngine2 [wRow] true).map
      (fun e => (e.stats.vector_dim, e.collection.map (fun p => p.2.vector.length)))
      = Except.ok (384, [2]) ∧ (384 : ℕ) ≠ 2 := by
  constructor
  · rw [index_run wEngine2 [wRow] true (Or.inr rfl)]
    rfl
  · decide

theorem index_force_recomputes_witness :
    ({ wEngine with model := fun _ => [5, 5] } : SemanticEngine).index [wRow] true
      = .ok { wEngine with
          model := (fun _ => [5, 5])
          collection := catFold (fun _ => [5, 5]) wEngine.collection [wRow] } :=
  (index_force_recomputes wEngine (fun _ => [5, 5]) [wRow]).2.1

/-- C7: calling the Vector Store upsert with input sequences of unequal
lengths is rejected with a ValidationError, and no store state results from
the call (no partial overwrite is visible to readers). -/
theorem upsert_validation (s : Store) (ids : List String) (embeddings : List Vec)
    (documents : List String) (metadatas : List Metadata)
    (h : ¬(ids.length = embeddings.length ∧ ids.length = documents.length ∧
        ids.length = metadatas.length)) :
    chromaUpsert s ids embeddings documents metadatas = .error ValidationError.unequalLengths ∧
    ∀ s', chromaUpsert s ids embeddings documents metadatas ≠ .ok s' := by
  unfold chromaUpsert
  rw [if_neg h]
  exact ⟨rfl, fun s' hc => Except.noConfusion hc⟩

theorem upsert_validation_witness :
    chromaUpsert [] ["1"] [] [] [] = .error ValidationError.unequalLengths :=
  (upsert_validation [] ["1"] [] [] [] (by simp)).1


theorem recommend_no_mutation_witness :
    SemanticEngine.recommendRun wDist wEngine "robot" 1
      = (wEngine, SemanticEngine.recommend wDist wEngine "robot" 1) :=
  (recommend_no_mutation wDist wEngine "robot" 1).1

/-! ## ETL helper lemmas -/

theorem matchYearAt_pat {d1 d2 d3 d4 : Char} {ws : List Char}
    (h1 : d1.isDigit = true) (h2 : d2.isDigit = true) (h3 : d3.isDigit = true)
    (h4 : d4.isDigit = true) (hws : ws.all isPySpace = true) :
    matchYearAt ('(' :: d1 :: d2 :: d3 :: d4 :: ')' :: ws) = some [d1, d2, d3, d4] := by
  simp [matchYearAt, h1, h2, h3, h4, hws]

theorem matchYearAt_offset {d1 d2 d3 d4 : Char} {ws : List Char} (q : List Char) (hq : q ≠ []) :
    matchYearAt (q ++ '(' :: d1 :: d2 :: d3 :: d4 :: ')' :: ws) = none := by
  have hpd : ('(' : Char).isDigit = false := by decide
  have hpr : ¬ (('(' : Char) = ')') := by decide
  have hps : isPySpace '(' = false := by decide
  rcases q with _ | ⟨a, _ | ⟨b, _ | ⟨c, _ | ⟨d, _ | ⟨f, _ | ⟨g, q'⟩⟩⟩⟩⟩⟩
  · exact absurd rfl hq
  · simp [matchYearAt, hpd]
  · simp [matchYearAt, hpd]
  · simp [matchYearAt, hpd]
  · simp [matchYearAt, hpd]
  · simp [matchYearAt, hpr]
  · have hall : ((q' ++ '(' :: d1 :: d2 :: d3 :: d4 :: ')' :: ws).all isPySpace) = false := by
      cases hcase : (q' ++ '(' :: d1 :: d2 :: d3 :: d4 :: ')' :: ws).all isPySpace
      · rfl
      · rw [List.all_eq_true] at hcase
        exact absurd (hcase '(' (by simp)) (by simp [hps])
    simp [matchYearAt, hall]

theorem searchYearGo_pat {d1 d2 d3 d4 : Char} {ws : List Char}
    (h1 : d1.isDigit = true) (h2 : d2.isDigit = true) (h3 : d3.isDigit = true)
    (h4 : d4.isDigit = true) (hws : ws.all isPySpace = true) :
    ∀ (p pre : List Char),
      searchYearGo pre (p ++ '(' :: d1 :: d2 :: d3 :: d4 :: ')' :: ws)
        = some (pre.reverse ++ p, [d1, d2, d3, d4]) := by
  intro p
  induction p with
  | nil =>
    intro pre
    rw [List.nil_append, searchYearGo, matchYearAt_pat h1 h2 h3 h4 hws]
    simp
  | cons c p' ih =>
    intro pre
    rw [List.cons_append, searchYearGo,
      show (c :: (p' ++ '(' :: d1 :: d2 :: d3 :: d4 :: ')' :: ws))
        = ((c :: p') ++ '(' :: d1 :: d2 :: d3 :: d4 :: ')' :: ws) from rfl,
      matchYearAt_offset (c :: p') (by simp)]
    refine (ih (c :: pre)).trans ?_
    simp

theorem matchYearAt_some_inv {l : List Char} {ds : List Char}
    (h : matchYearAt l = some ds) :
    ∃ (d1 d2 d3 d4 : Char) (ws : List Char),
      l = '(' :: d1 :: d2 :: d3 :: d4 :: ')' :: ws ∧ ds = [d1, d2, d3, d4] ∧
      d1.isDigit = true ∧ d2.isDigit = true ∧ d3.isDigit = true ∧ d4.isDigit = true ∧
      ws.all isPySpace = true := by
  rcases l with _ | ⟨c0, _ | ⟨c1, _ | ⟨c2, _ | ⟨c3, _ | ⟨c4, _ | ⟨c5, rest⟩⟩⟩⟩⟩⟩ <;>
    simp [matchYearAt] at h
  obtain ⟨hc, hds⟩ := h
  obtain ⟨⟨⟨⟨⟨⟨hp0, hd1⟩, hd2⟩, hd3⟩, hd4⟩, hp5⟩, hall⟩ := hc
  exact ⟨c1, c2, c3, c4, rest, by rw [hp0, hp5], hds.symm, hd1, hd2, hd3, hd4,
    List.all_eq_true.mpr hall⟩

theorem searchYearGo_some :
    ∀ (l pre p ds : List Char), searchYearGo pre l = some (p, ds) →
    ∃ (q : List Char) (d1 d2 d3 d4 : Char) (ws : List Char),
      l = q ++ '(' :: d1 :: d2 :: d3 :: d4 :: ')' :: ws ∧ p = pre.reverse ++ q ∧
      ds = [d1, d2, d3, d4] ∧
      d1.isDigit = true ∧ d2.isDigit = true ∧ d3.isDigit = true ∧ d4.isDigit = true ∧
      ws.all isPySpace = true := by
  intro l
  induction l with
  | nil =>
    intro pre p ds h
    rw [searchYearGo] at h
    simp [matchYearAt] at h
  | cons c cs ih =>
    intro pre p ds h
    rw [searchYearGo] at h
    cases hm : matchYearAt (c :: cs) with
    | some es =>
      rw [hm] at h
      have h' : some (pre.reverse, es) = some (p, ds) := h
      simp only [Option.some.injEq, Prod.mk.injEq] at h'
      obtain ⟨hp, hds⟩ := h'
      obtain ⟨d1, d2, d3, d4, ws, hl, hds', h1, h2, h3, h4, hws⟩ := matchYearAt_some_inv hm
      exact ⟨[], d1, d2, d3, d4, ws, by rw [hl]; rfl, by rw [← hp]; simp,
        by rw [← hds, hds'], h1, h2, h3, h4, hws⟩
    | none =>
      rw [hm] at h
      have h' : searchYearGo (c :: pre) cs = some (p, ds) := h
      obtain ⟨q, d1, d2, d3, d4, ws, hl, hp, hds, h1, h2, h3, h4, hws⟩ := ih (c :: pre) p ds h'
      exact ⟨c :: q, d1, d2, d3, d4, ws, by rw [List.cons_append, ← hl],
        by rw [hp]; simp, hds, h1, h2, h3, h4, hws⟩

/-- C10: clean_title and extract_year agree on every title — when the title
decomposes as a prefix followed by a parenthesised 4-digit year and trailing
whitespace, extract_year returns exactly those four digits and clean_title
returns the prefix with surrounding whitespace stripped; when no such
decomposition exists, extract_year returns the string Unknown and clean_title
returns the title merely stripped of surrounding whitespace. -/
theorem clean_extract_agree (t : List Char) :
    (∀ (p : List Char) (d1 d2 d3 d4 : Char) (ws : List Char),
      t = p ++ '(' :: d1 :: d2 :: d3 :: d4 :: ')' :: ws →
      d1.isDigit = true → d2.isDigit = true → d3.isDigit = true → d4.isDigit = true →
      ws.all isPySpace = true →
      extract_year t = [d1, d2, d3, d4] ∧ clean_title t = stripChars p) ∧
    ((¬ ∃ (p : List Char) (d1 d2 d3 d4 : Char) (ws : List Char),
      t = p ++ '(' :: d1 :: d2 :: d3 :: d4 :: ')' :: ws ∧
      d1.isDigit = true ∧ d2.isDigit = true ∧ d3.isDigit = true ∧ d4.isDigit = true ∧
      ws.all isPySpace = true) →
      extract_year t = "Unknown".toList ∧ clean_title t = stripChars t) := by
  constructor
  · intro p d1 d2 d3 d4 ws heq h1 h2 h3 h4 hws
    have hsy : searchYear t = some (p, [d1, d2, d3, d4]) := by
      unfold searchYear
      rw [heq, searchYearGo_pat h1 h2 h3 h4 hws p []]
      rfl
    constructor
    · unfold extract_year
      rw [hsy]
    · unfold clean_title
      rw [hsy]
  · intro hnex
    cases hsy : searchYear t with
    | none =>
      constructor
      · unfold extract_year
        rw [hsy]
      · unfold clean_title
        rw [hsy]
    | some pds =>
      exfalso
      apply hnex
      obtain ⟨q, d1, d2, d3, d4, ws, hl, hp, hds, h1, h2, h3, h4, hws⟩ :=
        searchYearGo_some t [] pds.1 pds.2 (by rw [← hsy]; rfl)
      exact ⟨q, d1, d2, d3, d4, ws, hl, h1, h2, h3, h4, hws⟩

theorem clean_extract_agree_witness :
    extract_year "The Matrix (1999)".toList = "1999".toList ∧
    clean_title "The Matrix (1999)".toList = "The Matrix".toList := by
  obtain ⟨h1, h2⟩ := (clean_extract_agree "The Matrix (1999)".toList).1
    "The Matrix ".toList '1' '9' '9' '9' [] (by decide) (by decide) (by decide)
    (by decide) (by decide) (by decide)
  constructor
  · rw [h1]
    decide
  · rw [h2]
    decide
